import Mathlib

/-!
Shallow embedding of the incremental data-consolidation engine of the
beehive-monitoring dashboard (`src/app.py`), together with proofs of the
specified properties.

Modelling conventions:
* A pandas row becomes a `Record` (device string, UTC timestamp as a `Nat`,
  named parameter cells).  Timestamps are already normalised to UTC by
  `pd.to_datetime(..., utc=True)`, so a totally ordered `Nat` models them.
* Python compares strings lexicographically over their character sequence,
  so string order and the prefix test are embedded over `String.data`.
* The InfluxDB query boundary (`query_api.query_data_frame` plus the
  pivot/keep/rename post-processing shared by `load_all_data` and
  `load_since`) is modelled as a `Fetcher`: a function from the optional
  lower time bound of the issued range query to either an exception
  (`Except.error`) or the list of fetched rows.  A Python exception that a
  function does not catch becomes an `Except.error` return value.
* Column-schema bookkeeping (`keep(columns:)`, filling absent columns with
  `np.nan`, the ISO string round-trip through `dcc.Store`) is identity on
  this record model and is not embedded separately.
-/

namespace Beehive

/-- Embeds one cell value as pandas sees it: `num v` is a value that
`pd.to_numeric(..., errors="coerce")` parses as numeric (a number or a
numeric string), `text s` is non-numeric text, `absent` is a missing value
(`NaN`). -/
inductive Cell where
  | num (v : Int)
  | text (s : String)
  | absent
  deriving DecidableEq

/-- Embeds `pd.to_numeric(x, errors="coerce")` applied to one cell: numeric
cells survive, everything else coerces to `NaN` (`none`). -/
def toNumeric : Cell → Option Int
  | .num v => some v
  | _ => none

/-- Embeds one row of the consolidated dataframe: a device identifier, a UTC
timestamp, and the named parameter cells. -/
structure Record where
  device : String
  time : Nat
  params : List (String × Cell)
  deriving DecidableEq

/-- Embeds the `(device, time)` identity key of a row, with the device name
as its character sequence. -/
def rawKey (r : Record) : List Char × Nat := (r.device.data, r.time)

/-- Embeds the identity key with the lexicographic order that
`sort_values(by=["device","time"])` uses on rows. -/
def key (r : Record) : Lex (List Char × Nat) := toLex (rawKey r)

/-- Row order used by `sort_values(by=["device","time"])`. -/
def keyLe (a b : Record) : Prop := key a ≤ key b

instance : DecidableRel keyLe := fun a b => inferInstanceAs (Decidable (key a ≤ key b))

instance : IsTotal Record keyLe := ⟨fun a b => le_total (key a) (key b)⟩

instance : IsTrans Record keyLe := ⟨fun _ _ _ h h2 => le_trans h h2⟩

/-- Embeds `sort_values(by=["device","time"])`.  pandas' default quicksort
is not stable, but every row list sorted here has pairwise distinct keys,
so all comparison sorts agree; a stable insertion sort represents them. -/
def sortByKey (l : List Record) : List Record := l.insertionSort keyLe

/-- Worker for `dropDupKeys`: `seen` is the set of keys already kept. -/
def dropDupKeysAux (seen : List (List Char × Nat)) : List Record → List Record
  | [] => []
  | r :: rs =>
      if rawKey r ∈ seen then dropDupKeysAux seen rs
      else r :: dropDupKeysAux (rawKey r :: seen) rs

/-- Embeds `drop_duplicates(subset=["device","time"])` (default
`keep="first"`): keep the first row carrying each `(device, time)` key,
preserving row order. -/
def dropDupKeys (l : List Record) : List Record := dropDupKeysAux [] l

/-- Embeds lines 243–245 of `update_data_store`: concatenate the current
dataset with the newly fetched rows, drop duplicate `(device, time)` keys,
re-sort by `(device, time)`. -/
def mergeDS (d f : List Record) : List Record := sortByKey (dropDupKeys (d ++ f))

/-- Result of one fetch: either the propagated exception text or rows. -/
abbrev FetchResult := Except String (List Record)

/-- Embeds the InfluxDB query boundary: from the optional inclusive lower
time bound of the issued range query (`none` for the configured
`START_TIME` epoch) to the outcome. -/
abbrev Fetcher := Option Nat → FetchResult

/-- Configuration constant `DEVICE_PREFIX_FILTER` (line 21). -/
def DEVICE_PREFIX_FILTER : String := "satellite"

/-- Embeds Python `str.startswith`: prefix test on the character
sequence. -/
def strStartsWith (s p : String) : Bool := p.data.isPrefixOf s.data

/-- Embeds the device filter of lines 64–65 and 83–84: when the configured
filter string is non-empty, keep only rows whose device identifier starts
with it. -/
def filterDevices (rows : List Record) : List Record :=
  if DEVICE_PREFIX_FILTER = "" then rows
  else rows.filter (fun r => strStartsWith r.device DEVICE_PREFIX_FILTER)

/-- Embeds `load_all_data` (lines 50–68), the Bootstrap fetch: query from
the configured start time, then apply the device filter.  An empty query
result yields the empty dataset; a query exception propagates unchanged —
the function body contains no `try`/`except`. -/
def load_all_data (fetch : Fetcher) : FetchResult :=
  match fetch none with
  | .error e => .error e
  | .ok rows => .ok (filterDevices rows)

/-- Embeds `load_since` (lines 70–87): query with the given inclusive lower
time bound (`range(start: time(v: iso_last_time))`), then apply the device
filter; a query exception propagates unchanged. -/
def load_since (fetch : Fetcher) (lastTime : Nat) : FetchResult :=
  match fetch (some lastTime) with
  | .error e => .error e
  | .ok rows => .ok (filterDevices rows)

/-- Embeds `data_df["time"].max()` (line 239). -/
def maxTime (l : List Record) : Nat := (l.map Record.time).foldr max 0

/-- Embeds `update_data_store` (lines 233–251), the Advance operation.  On
an empty (or never initialised) dataset it re-runs `load_all_data` outside
any `try`/`except`, so a fetch exception propagates.  On a non-empty
dataset it computes the watermark `last_time`, fetches from it, and — when
new rows arrived — concatenates, deduplicates and re-sorts; the
`try`/`except` around this branch turns any exception into "keep `data_df`
unchanged".  The trailing ISO-string serialisation into `dcc.Store`
(lines 248–251) is identity on this record model. -/
def update_data_store (fetch : Fetcher) (data_df : List Record) : FetchResult :=
  if data_df.isEmpty then
    load_all_data fetch
  else
    match load_since fetch (maxTime data_df) with
    | .error _ => .ok data_df
    | .ok new_df =>
        if new_df.isEmpty then .ok data_df
        else .ok (mergeDS data_df new_df)

/-- Row order used by `sort_values("time")`. -/
def timeLe (a b : Record) : Prop := a.time ≤ b.time

instance : DecidableRel timeLe := fun a b => inferInstanceAs (Decidable (a.time ≤ b.time))

instance : IsTotal Record timeLe := ⟨fun a b => Nat.le_total a.time b.time⟩

instance : IsTrans Record timeLe := ⟨fun _ _ _ h h2 => Nat.le_trans h h2⟩

/-- Embeds `sort_values("time")`. -/
def sortByTime (l : List Record) : List Record := l.insertionSort timeLe

/-- Device-name order used by `sort_values("device")`. -/
def strLe (a b : String) : Prop := a.data ≤ b.data

instance : DecidableRel strLe := fun a b => inferInstanceAs (Decidable (a.data ≤ b.data))

instance : IsTotal String strLe := ⟨fun a b => le_total a.data b.data⟩

instance : IsTrans String strLe := ⟨fun _ _ _ h h2 => le_trans h h2⟩

/-- Sorts device names, as `sort_values("device")` orders the
one-row-per-device summary frame. -/
def sortDevices (l : List String) : List String := l.insertionSort strLe

/-- Embeds the row selection of `update_device_table` (lines 257–271):
`df.sort_values("time").groupby("device").tail(1).sort_values("device")`.
`groupby("device").tail(1)` keeps, for each device, the last row of the
time-sorted frame, and `sort_values("device")` orders the resulting
one-row-per-device frame by device name.  The `last_seen` formatting and
the display rounding of lines 266–269 project the selected rows for
presentation only and are not embedded. -/
def update_device_table (records : List Record) : List Record :=
  (sortDevices ((records.map Record.device).dedup)).filterMap
    (fun d => ((sortByTime records).filter (fun r => r.device == d)).getLast?)

/-- Embeds lines 297–298 of `render_device_plots`:
`df[df["device"] == device_id].sort_values("time")`, the per-device series
view. -/
def seriesFor (records : List Record) (device_id : String) : List Record :=
  sortByTime (records.filter (fun r => r.device == device_id))

/-- Embeds a device-series dataframe column-major: column name paired with
its cells, in column order. -/
abbrev DF := List (String × List Cell)

/-- Configuration constant `FIELDS` (lines 32–37). -/
def FIELDS : List String :=
  ["version", "release", "counter",
   "hoursUptime", "almanacValidFrom", "satId",
   "temperature", "pressure", "humidity", "batteryVoltage",
   "booleanData", "hall", "userButton", "automatedMode"]

/-- Configuration constant `NON_PARAM_COLS` (line 39). -/
def NON_PARAM_COLS : List String := ["time", "device", "automatedMode"]

/-- Embeds `df.empty`: every column has zero rows (pandas columns share one
length, so one empty column means an empty frame; a frame with no columns
is empty too). -/
def dfEmpty (df : DF) : Bool := df.all (fun c => c.2.isEmpty)

/-- Embeds `pd.to_numeric(df[c], errors="coerce").notna().any()`. -/
def colNumericAny (cells : List Cell) : Bool := cells.any (fun v => (toNumeric v).isSome)

/-- Embeds `infer_parameter_columns` (lines 182–191): skip the identifier
columns, keep columns with at least one numeric-parsing value, then order
the preferred `FIELDS` names first and the remaining qualifying names in
encounter order. -/
def infer_parameter_columns (df : DF) : List String :=
  if dfEmpty df then []
  else
    let cols := (df.filter
      (fun c => !(NON_PARAM_COLS.contains c.1) && colNumericAny c.2)).map Prod.fst
    let ordered := FIELDS.filter (fun c => cols.contains c)
    ordered ++ cols.filter (fun c => !(ordered.contains c))

/-- States that no two rows of `l` share a `(device, time)` key. -/
def NodupKeys (l : List Record) : Prop := (l.map rawKey).Nodup

/-! ### Properties of duplicate-key dropping -/

/-- The worker only consults `seen` through membership. -/
theorem dropDupKeysAux_congr (l : List Record) :
    ∀ {s₁ s₂ : List (List Char × Nat)}, (∀ k, k ∈ s₁ ↔ k ∈ s₂) →
      dropDupKeysAux s₁ l = dropDupKeysAux s₂ l := by
  induction l with
  | nil => intro s₁ s₂ _; rfl
  | cons r rs ih =>
      intro s₁ s₂ h
      simp only [dropDupKeysAux]
      by_cases hr : rawKey r ∈ s₁
      · rw [if_pos hr, if_pos ((h _).1 hr)]
        exact ih h
      · rw [if_neg hr, if_neg (fun hx => hr ((h _).2 hx))]
        exact congrArg (r :: ·) (ih (fun k => by simp only [List.mem_cons, h k]))

/-- Splitting the worker across an append: the right part runs with the left
part's keys added to `seen`. -/
theorem dropDupKeysAux_append (xs ys : List Record) :
    ∀ s : List (List Char × Nat),
      dropDupKeysAux s (xs ++ ys) =
        dropDupKeysAux s xs ++ dropDupKeysAux (xs.map rawKey ++ s) ys := by
  induction xs with
  | nil => intro s; simp [dropDupKeysAux]
  | cons r xs ih =>
      intro s
      simp only [List.cons_append, dropDupKeysAux, List.map_cons, List.append_eq]
      by_cases hr : rawKey r ∈ s
      · rw [if_pos hr, if_pos hr, ih s]
        congr 1
        refine dropDupKeysAux_congr ys (fun k => ?_)
        simp only [List.mem_cons, List.mem_append]
        constructor
        · exact fun h => Or.inr h
        · rintro (rfl | h)
          · exact Or.inr hr
          · exact h
      · rw [if_neg hr, if_neg hr, ih (rawKey r :: s), List.cons_append]
        congr 2
        refine dropDupKeysAux_congr ys (fun k => ?_)
        simp only [List.mem_cons, List.mem_append]
        tauto

/-- Rows whose keys were all seen already are dropped entirely. -/
theorem dropDupKeysAux_eq_nil {s : List (List Char × Nat)} {l : List Record}
    (h : ∀ r ∈ l, rawKey r ∈ s) : dropDupKeysAux s l = [] := by
  induction l with
  | nil => rfl
  | cons r rs ih =>
      simp only [dropDupKeysAux, if_pos (h r (List.mem_cons_self r rs))]
      exact ih (fun x hx => h x (List.mem_cons_of_mem r hx))

/-- A key-duplicate-free row list whose keys avoid `seen` passes through the
worker unchanged. -/
theorem dropDupKeysAux_eq_self {l : List Record} :
    ∀ {s : List (List Char × Nat)}, (l.map rawKey).Nodup →
      (∀ r ∈ l, rawKey r ∉ s) → dropDupKeysAux s l = l := by
  induction l with
  | nil => intro s _ _; rfl
  | cons r rs ih =>
      intro s hnd hs
      simp only [List.map_cons, List.nodup_cons, List.mem_map] at hnd
      simp only [dropDupKeysAux, if_neg (hs r (List.mem_cons_self r rs))]
      refine congrArg (r :: ·) (ih hnd.2 ?_)
      intro x hx
      simp only [List.mem_cons]
      rintro (hk | hk)
      · exact hnd.1 ⟨x, hx, hk⟩
      · exact hs x (List.mem_cons_of_mem r hx) hk

/-- Keys surviving the worker are exactly the input keys outside `seen`. -/
theorem mem_map_rawKey_dropDupKeysAux {k : List Char × Nat} {l : List Record} :
    ∀ {s : List (List Char × Nat)},
      k ∈ (dropDupKeysAux s l).map rawKey ↔ k ∈ l.map rawKey ∧ k ∉ s := by
  induction l with
  | nil => intro s; simp [dropDupKeysAux]
  | cons r rs ih =>
      intro s
      simp only [dropDupKeysAux]
      by_cases hr : rawKey r ∈ s
      · rw [if_pos hr, ih]
        simp only [List.map_cons, List.mem_cons]
        constructor
        · intro ⟨h1, h2⟩; exact ⟨Or.inr h1, h2⟩
        · rintro ⟨rfl | h1, h2⟩
          · exact absurd hr h2
          · exact ⟨h1, h2⟩
      · rw [if_neg hr]
        simp only [List.map_cons, List.mem_cons, ih]
        by_cases hk : k = rawKey r
        · subst hk; simp [hr]
        · simp [hk]

/-- The worker's output has pairwise distinct keys. -/
theorem nodup_map_rawKey_dropDupKeysAux (l : List Record) :
    ∀ s : List (List Char × Nat), ((dropDupKeysAux s l).map rawKey).Nodup := by
  induction l with
  | nil => intro s; simp [dropDupKeysAux]
  | cons r rs ih =>
      intro s
      simp only [dropDupKeysAux]
      by_cases hr : rawKey r ∈ s
      · rw [if_pos hr]; exact ih s
      · rw [if_neg hr]
        simp only [List.map_cons, List.nodup_cons]
        refine ⟨fun hmem => ?_, ih _⟩
        exact (mem_map_rawKey_dropDupKeysAux.1 hmem).2 (List.mem_cons_self _ _)

/-- The worker keeps only rows of its input. -/
theorem mem_of_mem_dropDupKeysAux {x : Record} {l : List Record} :
    ∀ {s : List (List Char × Nat)}, x ∈ dropDupKeysAux s l → x ∈ l := by
  induction l with
  | nil =>
      intro s h
      rw [dropDupKeysAux] at h
      exact absurd h (List.not_mem_nil x)
  | cons r rs ih =>
      intro s h
      simp only [dropDupKeysAux] at h
      by_cases hr : rawKey r ∈ s
      · rw [if_pos hr] at h
        exact List.mem_cons_of_mem r (ih h)
      · rw [if_neg hr] at h
        rcases List.mem_cons.1 h with rfl | h
        · exact List.mem_cons_self _ _
        · exact List.mem_cons_of_mem r (ih h)

/-- The first row carrying a given key survives the worker. -/
theorem mem_dropDupKeysAux_of_first {x : Record} {l₁ l₂ : List Record}
    {s : List (List Char × Nat)} (hs : rawKey x ∉ s)
    (h₁ : ∀ y ∈ l₁, rawKey y ≠ rawKey x) :
    x ∈ dropDupKeysAux s (l₁ ++ x :: l₂) := by
  rw [dropDupKeysAux_append]
  refine List.mem_append_right _ ?_
  have hx : rawKey x ∉ l₁.map rawKey ++ s := by
    simp only [List.mem_append, List.mem_map]
    rintro (⟨y, hy, hk⟩ | hk)
    · exact h₁ y hy hk
    · exact hs hk
  simp only [dropDupKeysAux, if_neg hx]
  exact List.mem_cons_self _ _

/-! ### Invariants of the merge step -/

/-- The merged dataset has pairwise distinct `(device, time)` keys. -/
theorem nodupKeys_mergeDS (d f : List Record) : NodupKeys (mergeDS d f) := by
  unfold NodupKeys mergeDS sortByKey
  have hp := (List.perm_insertionSort keyLe (dropDupKeys (d ++ f))).map rawKey
  exact hp.nodup_iff.2 (nodup_map_rawKey_dropDupKeysAux _ _)

/-- The merged dataset is sorted by `(device, time)`. -/
theorem sorted_mergeDS (d f : List Record) : List.Sorted keyLe (mergeDS d f) :=
  List.sorted_insertionSort keyLe _

/-- Every key of the second merge argument occurs in the merged dataset. -/
theorem rawKey_mem_mergeDS {f : Record} (d fs : List Record) (hf : f ∈ fs) :
    rawKey f ∈ (mergeDS d fs).map rawKey := by
  unfold mergeDS sortByKey
  rw [((List.perm_insertionSort keyLe (dropDupKeys (d ++ fs))).map rawKey).mem_iff]
  unfold dropDupKeys
  rw [mem_map_rawKey_dropDupKeysAux]
  exact ⟨List.mem_map_of_mem rawKey (List.mem_append_right d hf), List.not_mem_nil _⟩

/-- Re-running duplicate dropping over the merged dataset plus the same fetch
result gives the merged dataset back. -/
theorem dropDupKeys_mergeDS_append (d f : List Record) :
    dropDupKeys (mergeDS d f ++ f) = mergeDS d f := by
  unfold dropDupKeys
  rw [dropDupKeysAux_append]
  rw [dropDupKeysAux_eq_self (nodupKeys_mergeDS d f) (fun r _ => List.not_mem_nil _)]
  rw [dropDupKeysAux_eq_nil (fun r hr => ?_), List.append_nil]
  exact List.mem_append_left _ (rawKey_mem_mergeDS d f hr)

/-! ### Watermark lemmas -/

/-- The watermark of a non-empty dataset is one of its timestamps. -/
theorem maxTime_mem {D : List Record} (h : D ≠ []) : maxTime D ∈ D.map Record.time := by
  induction D with
  | nil => exact absurd rfl h
  | cons r rs ih =>
      cases rs with
      | nil => simp [maxTime]
      | cons b l =>
          have hm : maxTime (r :: b :: l) = max r.time (maxTime (b :: l)) := rfl
          simp only [List.map_cons]
          rcases Nat.le_total r.time (maxTime (b :: l)) with hle | hle
          · rw [hm, Nat.max_eq_right hle]
            have hmem := ih (by simp)
            simp only [List.map_cons] at hmem
            exact List.mem_cons_of_mem _ hmem
          · rw [hm, Nat.max_eq_left hle]
            exact List.mem_cons_self _ _

/-- The watermark bounds every timestamp of the dataset. -/
theorem le_maxTime {D : List Record} {r : Record} (hr : r ∈ D) : r.time ≤ maxTime D := by
  induction D with
  | nil => exact absurd hr (List.not_mem_nil r)
  | cons b l ih =>
      unfold maxTime
      simp only [List.map_cons, List.foldr_cons]
      rcases List.mem_cons.1 hr with rfl | hr
      · exact Nat.le_max_left _ _
      · exact Nat.le_trans (ih hr) (Nat.le_max_right _ _)

/-! ### Concrete fixtures used by witnesses and counterexamples -/

/-- Fetcher whose query always raises. -/
def fetchErr : Fetcher := fun _ => .error "boom"

/-- Fetcher that raises only on incremental (`load_since`) queries. -/
def fetchErrSince : Fetcher := fun o =>
  match o with
  | none => .ok []
  | some _ => .error "boom"

/-- Fixture row of device `satellite-2`. -/
def recA : Record := ⟨"satellite-2", 5, []⟩

/-- Fixture row of device `satellite-1`. -/
def recB : Record := ⟨"satellite-1", 3, []⟩

/-- Fetcher returning rows out of `(device, time)` order. -/
def fetchUnsorted : Fetcher := fun _ => .ok [recA, recB]

/-- Fetcher returning the same row twice. -/
def fetchDup : Fetcher := fun _ => .ok [recB, recB]

/-- Fixture row already consolidated. -/
def recOld : Record := ⟨"satellite-1", 3, [("temperature", Cell.num 20)]⟩

/-- Fixture row re-fetched later with the same `(device, time)` key but
different content. -/
def recNew : Record := ⟨"satellite-1", 3, [("temperature", Cell.num 99)]⟩

instance (l : List Record) : Decidable (NodupKeys l) :=
  inferInstanceAs (Decidable ((l.map rawKey).Nodup))

/-! ### Claim C1 -/

/-- C1: for every non-empty dataset, if the fetch issued by Advance raises,
then Advance returns exactly the current dataset — same records, unchanged —
and no exception escapes the call (the result is `ok`, never `error`). -/
theorem advance_fetch_error_returns_current (fetch : Fetcher) (D : List Record)
    (e : String) (hne : D ≠ []) (herr : fetch (some (maxTime D)) = .error e) :
    update_data_store fetch D = .ok D := by
  have hD : D.isEmpty = false := by simp [List.isEmpty_iff, hne]
  unfold update_data_store load_since
  rw [hD, herr]
  simp

/-- Witness for C1 at a concrete dataset and failing fetcher. -/
theorem advance_fetch_error_returns_current_witness :
    update_data_store fetchErr [recB] = .ok [recB] :=
  advance_fetch_error_returns_current fetchErr [recB] "boom" (by decide) rfl

/-! ### Claim C2 (corrected) -/

/-- C2 counterexample: with a failing source, Bootstrap — and Advance's
Bootstrap path on the empty dataset — propagates the exception instead of
returning the empty dataset. -/
theorem bootstrap_fetch_error_counterexample :
    load_all_data fetchErr = .error "boom" ∧
    update_data_store fetchErr [] = .error "boom" ∧
    load_all_data fetchErr ≠ .ok [] := by
  refine ⟨rfl, rfl, ?_⟩
  intro h
  exact Except.noConfusion h

/-- C2 amended: a fetch failure during Bootstrap, or during the Bootstrap
path taken by Advance on an empty dataset, propagates the exception to the
caller unchanged; only a successful empty fetch yields the empty dataset.
The catch-and-degrade path exists only in Advance on a non-empty dataset. -/
theorem bootstrap_fetch_error_propagates (fetch : Fetcher) (e : String)
    (h : fetch none = .error e) :
    load_all_data fetch = .error e ∧ update_data_store fetch [] = .error e := by
  constructor <;> simp [update_data_store, load_all_data, h]

/-- Witness for the amended C2 at a concrete failing fetcher. -/
theorem bootstrap_fetch_error_propagates_witness :
    load_all_data fetchErr = .error "boom" ∧
    update_data_store fetchErr [] = .error "boom" :=
  bootstrap_fetch_error_propagates fetchErr "boom" rfl

/-! ### Claim C3 (corrected) -/

/-- C3 counterexample: Bootstrap applies no sort, so when the source returns
rows out of `(device, time)` order, the dataset Bootstrap produces is not
sorted by `(device, time)`. -/
theorem bootstrap_unsorted_counterexample :
    load_all_data fetchUnsorted = .ok [recA, recB] ∧
    ¬ List.Sorted keyLe [recA, recB] := by
  constructor
  · rfl
  · decide

/-- C3 amended: re-sorting happens only in the merge step.  Advance on a
non-empty dataset returns either the input dataset unchanged (fetch failure
or no new rows) or a merged dataset sorted by `(device, time)`; Bootstrap
returns the rows in the source's order, so its output is sorted only when
that order is. -/
theorem advance_sorted_or_unchanged (fetch : Fetcher) (D out : List Record)
    (hne : D ≠ []) (h : update_data_store fetch D = .ok out) :
    out = D ∨ List.Sorted keyLe out := by
  have hD : D.isEmpty = false := by simp [List.isEmpty_iff, hne]
  unfold update_data_store at h
  rw [hD] at h
  simp only [Bool.false_eq_true, if_false] at h
  split at h
  · exact Or.inl (Except.ok.inj h).symm
  · split at h
    · exact Or.inl (Except.ok.inj h).symm
    · refine Or.inr ?_
      rw [← Except.ok.inj h]
      exact sorted_mergeDS _ _

/-- Fixture row of device `satellite-1` at a later time. -/
def recC : Record := ⟨"satellite-1", 9, []⟩

/-- Fetcher returning one genuinely new row. -/
def fetchNewRow : Fetcher := fun _ => .ok [recC]

/-- Witness for the amended C3 at a concrete merge. -/
theorem advance_sorted_or_unchanged_witness :
    [recB, recC] = [recB] ∨ List.Sorted keyLe [recB, recC] :=
  advance_sorted_or_unchanged fetchNewRow [recB] [recB, recC] (by decide) rfl

/-! ### Claim C4 (corrected) -/

/-- C4 counterexample: Bootstrap applies no deduplication, so when the
source returns the same row twice, the dataset Bootstrap produces carries a
duplicate `(device, time)` key. -/
theorem bootstrap_duplicate_keys_counterexample :
    load_all_data fetchDup = .ok [recB, recB] ∧ ¬ NodupKeys [recB, recB] := by
  constructor
  · rfl
  · decide

/-- C4 amended: key deduplication happens only in the merge step.  Advance
on a non-empty dataset returns either the input dataset unchanged or a
merged dataset whose `(device, time)` keys are pairwise distinct; Bootstrap
passes the source's rows through without deduplication. -/
theorem advance_nodup_or_unchanged (fetch : Fetcher) (D out : List Record)
    (hne : D ≠ []) (h : update_data_store fetch D = .ok out) :
    out = D ∨ NodupKeys out := by
  have hD : D.isEmpty = false := by simp [List.isEmpty_iff, hne]
  unfold update_data_store at h
  rw [hD] at h
  simp only [Bool.false_eq_true, if_false] at h
  split at h
  · exact Or.inl (Except.ok.inj h).symm
  · split at h
    · exact Or.inl (Except.ok.inj h).symm
    · refine Or.inr ?_
      rw [← Except.ok.inj h]
      exact nodupKeys_mergeDS _ _

/-- Witness for the amended C4 at a concrete merge. -/
theorem advance_nodup_or_unchanged_witness :
    [recB, recC] = [recB] ∨ NodupKeys [recB, recC] :=
  advance_nodup_or_unchanged fetchNewRow [recB] [recB, recC] (by decide) rfl

/-! ### Claim C5 -/

/-- C5: the merge step — concatenate the current dataset with the fetched
rows, drop duplicate `(device, time)` keys, re-sort by `(device, time)` — is
idempotent: merging the same fetch result a second time changes nothing. -/
theorem merge_idempotent (D F : List Record) :
    mergeDS (mergeDS D F) F = mergeDS D F := by
  conv_lhs => rw [mergeDS]
  rw [dropDupKeys_mergeDS_append]
  unfold sortByKey
  exact List.Sorted.insertionSort_eq (sorted_mergeDS D F)

/-! ### Claim C6 -/

/-- C6: Advance on the empty dataset behaves exactly as Bootstrap.  On a
non-empty dataset the single fetch Advance issues carries the inclusive
lower bound `maxTime D`: the result depends on the fetcher only through its
value at `some (maxTime D)`, and `maxTime D` is a timestamp present in the
dataset bounding all its timestamps — the maximum. -/
theorem advance_bootstrap_and_watermark (fetch g : Fetcher) (D : List Record) :
    (D = [] → update_data_store fetch D = load_all_data fetch) ∧
    (D ≠ [] → fetch (some (maxTime D)) = g (some (maxTime D)) →
      update_data_store fetch D = update_data_store g D) ∧
    (D ≠ [] → maxTime D ∈ D.map Record.time ∧ ∀ r ∈ D, r.time ≤ maxTime D) := by
  refine ⟨fun h => by subst h; rfl, fun hne hfg => ?_,
    fun hne => ⟨maxTime_mem hne, fun r hr => le_maxTime hr⟩⟩
  have hD : D.isEmpty = false := by simp [List.isEmpty_iff, hne]
  unfold update_data_store load_since
  rw [hD, hfg]
  simp

/-- Witness for C6: the Bootstrap case at the empty dataset, the
fetch-boundary case at a one-row dataset under two fetchers that agree at
the watermark, and the watermark bound itself. -/
theorem advance_bootstrap_and_watermark_witness :
    update_data_store fetchErr [] = load_all_data fetchErr ∧
    update_data_store fetchErr [recB] = update_data_store fetchErrSince [recB] ∧
    (maxTime [recB] ∈ [recB].map Record.time ∧ ∀ r ∈ [recB], r.time ≤ maxTime [recB]) := by
  refine ⟨(advance_bootstrap_and_watermark fetchErr fetchErrSince []).1 rfl, ?_, ?_⟩
  · exact (advance_bootstrap_and_watermark fetchErr fetchErrSince [recB]).2.1
      (by decide) rfl
  · exact (advance_bootstrap_and_watermark fetchErr fetchErrSince [recB]).2.2 (by decide)

/-! ### Claim C10 -/

/-- C10: when a newly fetched row carries the `(device, time)` key of a row
already in the current dataset, the merge keeps the existing dataset's row —
it survives into the merged dataset and is the only row there with that key,
so the fetched duplicate is discarded: deduplication keeps the first
occurrence in concatenation order and old data wins. -/
theorem merge_keeps_existing_record (D F : List Record) (r : Record)
    (hnd : NodupKeys D) (hr : r ∈ D) :
    r ∈ mergeDS D F ∧ ∀ f ∈ mergeDS D F, rawKey f = rawKey r → f = r := by
  constructor
  · obtain ⟨s, t, rfl⟩ := List.append_of_mem hr
    unfold mergeDS sortByKey
    rw [List.mem_insertionSort]
    unfold dropDupKeys
    rw [List.append_assoc, List.cons_append]
    refine mem_dropDupKeysAux_of_first (List.not_mem_nil _) ?_
    unfold NodupKeys at hnd
    rw [List.map_append, List.nodup_append] at hnd
    intro y hy hk
    exact hnd.2.2 (List.mem_map_of_mem rawKey hy)
      (hk ▸ List.mem_cons_self _ _ : rawKey y ∈ (r :: t).map rawKey)
  · intro f hf hk
    have hrm : r ∈ mergeDS D F := by
      obtain ⟨s, t, rfl⟩ := List.append_of_mem hr
      unfold mergeDS sortByKey
      rw [List.mem_insertionSort]
      unfold dropDupKeys
      rw [List.append_assoc, List.cons_append]
      refine mem_dropDupKeysAux_of_first (List.not_mem_nil _) ?_
      unfold NodupKeys at hnd
      rw [List.map_append, List.nodup_append] at hnd
      intro y hy hk2
      exact hnd.2.2 (List.mem_map_of_mem rawKey hy)
        (hk2 ▸ List.mem_cons_self _ _ : rawKey y ∈ (r :: t).map rawKey)
    exact List.inj_on_of_nodup_map (nodupKeys_mergeDS D F) hf hrm hk

/-- Witness for C10: merging a re-fetched row with the key of a consolidated
row but different content keeps the consolidated row. -/
theorem merge_keeps_existing_record_witness :
    recOld ∈ mergeDS [recOld] [recNew] ∧
    ∀ f ∈ mergeDS [recOld] [recNew], rawKey f = rawKey recOld → f = recOld :=
  merge_keeps_existing_record [recOld] [recNew] recOld (by decide) (by decide)

/-! ### Claim C9 -/

/-- C9: the per-device series holds exactly the dataset's records of the
requested device — a permutation of the filtered dataset, with membership
characterised by the device field — sorted by time, and it is empty (not an
error) whenever the device has no records in the dataset. -/
theorem seriesFor_spec (records : List Record) (device_id : String) :
    (seriesFor records device_id).Perm
      (records.filter (fun r => r.device == device_id)) ∧
    (∀ r, r ∈ seriesFor records device_id ↔ r ∈ records ∧ r.device = device_id) ∧
    List.Sorted timeLe (seriesFor records device_id) ∧
    ((∀ r ∈ records, r.device ≠ device_id) → seriesFor records device_id = []) := by
  refine ⟨List.perm_insertionSort timeLe _, fun r => ?_,
    List.sorted_insertionSort timeLe _, fun h => ?_⟩
  · unfold seriesFor sortByTime
    rw [List.mem_insertionSort, List.mem_filter, beq_iff_eq]
  · unfold seriesFor sortByTime
    have hnil : records.filter (fun r => r.device == device_id) = [] := by
      rw [List.filter_eq_nil_iff]
      intro a ha
      rw [beq_iff_eq]
      exact fun hdev => h a ha hdev
    rw [hnil]
    rfl

/-- Witness for C9: membership characterisation on a two-device dataset and
the empty series of a device absent from the dataset. -/
theorem seriesFor_spec_witness :
    (recB ∈ seriesFor [recA, recB] "satellite-1" ↔
      recB ∈ [recA, recB] ∧ recB.device = "satellite-1") ∧
    seriesFor [recA, recB] "gateway-1" = [] :=
  ⟨(seriesFor_spec [recA, recB] "satellite-1").2.1 recB,
   (seriesFor_spec [recA, recB] "gateway-1").2.2.2 (by decide)⟩

/-! ### Claim C8 -/

/-- Mapping the device name over a `filterMap`-built summary recovers the
device list whenever each device yields a row of that device. -/
theorem filterMap_map_device {devs : List String} {f : String → Option Record}
    (h : ∀ d ∈ devs, ∃ r, f d = some r ∧ r.device = d) :
    (devs.filterMap f).map Record.device = devs := by
  induction devs with
  | nil => rfl
  | cons d ds ih =>
      obtain ⟨r, hr, hdev⟩ := h d (List.mem_cons_self d ds)
      simp only [List.filterMap_cons, hr, List.map_cons]
      rw [hdev, ih (fun x hx => h x (List.mem_cons_of_mem d hx))]

/-- In a time-sorted row list, the last row's time bounds every row's
time. -/
theorem time_le_getLast :
    ∀ {l : List Record}, List.Sorted timeLe l → ∀ {a : Record},
      l.getLast? = some a → ∀ x ∈ l, x.time ≤ a.time
  | [], _, _, ha, x, hx => absurd hx (List.not_mem_nil x)
  | [b], _, a, ha, x, hx => by
      rw [List.getLast?_singleton] at ha
      rcases List.mem_singleton.1 hx with rfl
      rw [← Option.some_inj.1 ha]
  | b :: c :: t, hs, a, ha, x, hx => by
      rw [List.getLast?_cons_cons] at ha
      rcases List.mem_cons.1 hx with rfl | hx2
      · have hamem : a ∈ c :: t := List.mem_of_mem_getLast? ha
        exact List.rel_of_sorted_cons hs a hamem
      · exact time_le_getLast hs.of_cons ha x hx2

/-- C8: the device summary selects exactly one row per distinct device
present in the dataset — its device column is the sorted deduplicated device
list — and every summary row belongs to the dataset and carries the maximum
time among its device's records.  Rows tying on the maximum time are
resolved deterministically by taking the last one in time-sorted order. -/
theorem update_device_table_spec (records : List Record) :
    (update_device_table records).map Record.device =
      sortDevices ((records.map Record.device).dedup) ∧
    ∀ r ∈ update_device_table records,
      r ∈ records ∧ ∀ s ∈ records, s.device = r.device → s.time ≤ r.time := by
  constructor
  · unfold update_device_table
    refine filterMap_map_device (fun d hd => ?_)
    have hd3 : d ∈ records.map Record.device :=
      List.mem_dedup.1 ((List.mem_insertionSort strLe).1 hd)
    obtain ⟨x, hx, hxd⟩ := List.mem_map.1 hd3
    have hxf : x ∈ (sortByTime records).filter (fun r => r.device == d) := by
      rw [List.mem_filter, beq_iff_eq]
      exact ⟨(List.mem_insertionSort timeLe).2 hx, hxd⟩
    cases hlast : ((sortByTime records).filter (fun r => r.device == d)).getLast? with
    | none =>
        rw [List.getLast?_eq_none_iff] at hlast
        rw [hlast] at hxf
        exact absurd hxf (List.not_mem_nil x)
    | some r =>
        refine ⟨r, rfl, ?_⟩
        have hrf := List.mem_of_mem_getLast? hlast
        rw [List.mem_filter, beq_iff_eq] at hrf
        exact hrf.2
  · intro r hr
    unfold update_device_table at hr
    rw [List.mem_filterMap] at hr
    obtain ⟨d, _, hlast⟩ := hr
    have hrf := List.mem_of_mem_getLast? hlast
    rw [List.mem_filter, beq_iff_eq] at hrf
    obtain ⟨hrs, hrd⟩ := hrf
    refine ⟨(List.mem_insertionSort timeLe).1 hrs, fun s hs hsd => ?_⟩
    have hsf : s ∈ (sortByTime records).filter (fun x => x.device == d) := by
      rw [List.mem_filter, beq_iff_eq]
      exact ⟨(List.mem_insertionSort timeLe).2 hs, by rw [hsd, hrd]⟩
    have hsorted :
        List.Sorted timeLe ((sortByTime records).filter (fun x => x.device == d)) :=
      (List.sorted_insertionSort timeLe records).filter _
    exact time_le_getLast hsorted hlast s hsf

/-- Witness for C8 on a three-row, two-device dataset: the device column is
the sorted device list, and the selected `satellite-1` row is the dataset
row with that device's maximum time. -/
theorem update_device_table_spec_witness :
    (update_device_table [recA, recB, recC]).map Record.device =
      sortDevices (([recA, recB, recC].map Record.device).dedup) ∧
    (recC ∈ [recA, recB, recC] ∧
      ∀ s ∈ [recA, recB, recC], s.device = recC.device → s.time ≤ recC.time) :=
  ⟨(update_device_table_spec [recA, recB, recC]).1,
   (update_device_table_spec [recA, recB, recC]).2 recC (by decide)⟩

/-! ### Claim C7 -/

/-- Names of the qualifying columns of a device series, in column
(first-encountered) order: not an identifier column, and at least one value
parses as numeric.  This is the `cols` list of `infer_parameter_columns`. -/
def qualNames (df : DF) : List String :=
  (df.filter (fun c => !(NON_PARAM_COLS.contains c.1) && colNumericAny c.2)).map Prod.fst

/-- A name qualifies exactly when some column of that name is not an
identifier column and has a value parsing as numeric. -/
theorem mem_qualNames {df : DF} {s : String} :
    s ∈ qualNames df ↔
      ∃ cells, (s, cells) ∈ df ∧ s ∉ NON_PARAM_COLS ∧
        ∃ v ∈ cells, (toNumeric v).isSome := by
  unfold qualNames colNumericAny
  simp only [List.mem_map, List.mem_filter, Bool.and_eq_true, Bool.not_eq_true',
    List.any_eq_true]
  constructor
  · rintro ⟨⟨n, cells⟩, ⟨hdf, hnc, hnum⟩, rfl⟩
    refine ⟨cells, hdf, ?_, hnum⟩
    simpa using hnc
  · rintro ⟨cells, hdf, hns, hnum⟩
    refine ⟨(s, cells), ⟨hdf, ?_, hnum⟩, rfl⟩
    simpa using hns

/-- An empty device series yields no qualifying column names. -/
theorem qualNames_eq_nil_of_empty {df : DF} (h : dfEmpty df = true) :
    qualNames df = [] := by
  unfold qualNames
  rw [List.map_eq_nil_iff, List.filter_eq_nil_iff]
  intro c hc
  unfold dfEmpty at h
  rw [List.all_eq_true] at h
  have hcell := h c hc
  rw [List.isEmpty_iff] at hcell
  simp [colNumericAny, hcell]

/-- C7: a name is listed by `infer_parameter_columns` exactly when one of
its column's values parses as numeric and it is not one of the fixed
identifiers (`time`, `device`, `automatedMode`); the output lists the
qualifying names of the canonical `FIELDS` preference list first, in that
list's order, followed by the remaining qualifying names in
first-encountered (column) order.  Determinism for a given input holds
because the embedding is a function of the series alone. -/
theorem infer_parameter_columns_spec (df : DF) :
    (∀ s, s ∈ infer_parameter_columns df ↔
        ∃ cells, (s, cells) ∈ df ∧ s ∉ NON_PARAM_COLS ∧
          ∃ v ∈ cells, (toNumeric v).isSome) ∧
    infer_parameter_columns df =
      FIELDS.filter (fun c => (qualNames df).contains c) ++
        (qualNames df).filter (fun c => !(FIELDS.contains c)) := by
  have hmain : infer_parameter_columns df =
      FIELDS.filter (fun c => (qualNames df).contains c) ++
        (qualNames df).filter (fun c => !(FIELDS.contains c)) := by
    by_cases hemp : dfEmpty df
    · have hq : qualNames df = [] := qualNames_eq_nil_of_empty hemp
      unfold infer_parameter_columns
      rw [if_pos hemp, hq]
      simp
    · unfold infer_parameter_columns
      rw [if_neg hemp]
      show FIELDS.filter (fun c => (qualNames df).contains c) ++
          (qualNames df).filter
            (fun c => !((FIELDS.filter (fun c => (qualNames df).contains c)).contains c)) =
        _
      congr 1
      refine List.filter_congr (fun c hc => ?_)
      have hcc : (qualNames df).contains c = true := by simpa using hc
      by_cases hF : c ∈ FIELDS
      · have h1 : (FIELDS.filter (fun c => (qualNames df).contains c)).contains c = true :=
          List.elem_iff.2 (List.mem_filter.2 ⟨hF, hcc⟩)
        have h2 : FIELDS.contains c = true := List.elem_iff.2 hF
        rw [h1, h2]
      · have h1 : (FIELDS.filter (fun c => (qualNames df).contains c)).contains c = false :=
          Bool.eq_false_iff.2 (fun h => hF (List.mem_filter.1 (List.elem_iff.1 h)).1)
        have h2 : FIELDS.contains c = false :=
          Bool.eq_false_iff.2 (fun h => hF (List.elem_iff.1 h))
        rw [h1, h2]
  refine ⟨fun s => ?_, hmain⟩
  rw [← mem_qualNames, hmain, List.mem_append, List.mem_filter, List.mem_filter]
  constructor
  · rintro (⟨_, hc⟩ | ⟨hq, _⟩)
    · simpa using hc
    · exact hq
  · intro hq
    by_cases hF : s ∈ FIELDS
    · exact Or.inl ⟨hF, by simpa using hq⟩
    · refine Or.inr ⟨hq, ?_⟩
      simpa using hF

end Beehive
